import Mathlib

/-!
# HeapTimer: the id-indexed min-heap of connection deadlines

A shallow embedding of `src/timer/heaptimer.cpp` / `src/timer/heaptimer.h`.

* `heap_` (a `std::vector<TimerNode>`) is a list. Every operation returns a `Res`: either
  `Res.ok` with the state it leaves, or `Res.fault` with the reason and the state at the point
  where it stopped (a failed `assert`, or an access past the end at an index taken from a
  broken `ref_`; neither occurs from a state satisfying the index-map invariant).
* The one access past the end that correct states do reach is the read `heap_[parent]` of
  `siftup_` at the root, where `parent = (0-1)/2 = 2^63 - 1`. `std::vector::operator[]` makes
  no bounds check: the element address `parent * sizeof(TimerNode)` wraps modulo `2^64` to the
  slot just in front of the buffer, which holds allocator bookkeeping and no deadline of the
  running clock, so the comparison `heap_[parent] > heap_[i]` is false and the loop takes its
  `break`. The embedding records the index of such a read in the log `stray` and goes on in
  that branch; it decides nothing else about the bytes read.
* `ref_` (a `std::unordered_map<int, size_t>`) is an association list read by first match.
* `size_t` is 64 bits wide; the one place where unsigned wrap-around matters, the parent
  index `(i-1)/2` of `siftup_`, is computed modulo `2^64`.
* Time points are integers counting clock ticks; the value of `Clock::now()` is a parameter
  of each call (`tickAt` takes one reading per loop iteration, `tick` holds the clock fixed).
* A callback is an opaque token; invoking `cb(id)` appends `(cb, id)` to the log `fired`
  (callbacks do not touch the timer).
-/

namespace WebServer

/-! ## Time -/

/-- Clock ticks per millisecond. `Clock` is `std::chrono::high_resolution_clock`, whose
period is one nanosecond on the Linux standard libraries this epoll-based server targets. -/
def ticksPerMs : Int := 1000000

/-- The duration `MS(n)` (`std::chrono::milliseconds`) converted to clock ticks, as in
`Clock::now() + MS(n)`. -/
def MS (n : Int) : Int := n * ticksPerMs

/-- The value of `std::chrono::duration_cast<MS>(d).count()`: whole milliseconds, rounded
toward zero. -/
def durationCastMS (d : Int) : Int := Int.tdiv d ticksPerMs

/-! ## Data model -/

/-- A `TimerNode`: `id`, the time point `expires` in clock ticks, and the callback `cb`
(an opaque token standing for the `std::function<void(int)>`). -/
structure TimerNode where
  id : Int
  expires : Int
  cb : Nat
deriving DecidableEq

/-- The `HeapTimer` object: the vector `heap_` and the map `ref_`; `fired` is the log of
callback invocations `(cb, argument)`, oldest first, and `stray` is the log of the indices
`k >= heap_.size()` at which `heap_[k]` was read, oldest first (neither log is a member of the
C++ class). -/
structure HeapTimer where
  heap_ : List TimerNode
  ref_ : List (Int × Nat)
  fired : List (Nat × Int)
  stray : List Nat := []
deriving DecidableEq

/-- Why a call stopped before returning. -/
inductive Fault where
  /-- The read or write `heap_[index]` with `index >= heap_.size()`. -/
  | outOfRange (index : Nat)
  /-- An `assert` whose condition is false. -/
  | assertion
  /-- The iteration bound of the embedding ran out (never the case for a vector of fewer
  than `2^63` entries). -/
  | fuel
deriving DecidableEq

/-- Result of a call: it returned `a` leaving state `s`, or it stopped with fault `f` in
state `s`. -/
inductive Res (α : Type) where
  | ok (a : α) (s : HeapTimer)
  | fault (f : Fault) (s : HeapTimer)
deriving DecidableEq

/-- The state a call leaves, whichever way it ended. -/
def Res.state {α : Type} : Res α → HeapTimer
  | .ok _ s => s
  | .fault _ s => s

/-- Whether the call returned to its caller. -/
def Res.isOk {α : Type} : Res α → Bool
  | .ok _ _ => true
  | .fault _ _ => false

/-- Sequencing: continue with `k` when the first call returned. -/
def Res.bind {α β : Type} (r : Res α) (k : α → HeapTimer → Res β) : Res β :=
  match r with
  | .ok a s => k a s
  | .fault f s => .fault f s

/-! ## The map `ref_` -/

/-- Lookup `ref_.find(x)`: the value stored under `x`, if any. -/
def refLookup : List (Int × Nat) → Int → Option Nat
  | [], _ => none
  | (k, v) :: m, x => if x = k then some v else refLookup m x

/-- The value of `ref_.count(x)`: 1 when `x` is a key, else 0. -/
def refCount (m : List (Int × Nat)) (x : Int) : Nat :=
  if (refLookup m x).isSome then 1 else 0

/-- The read `ref_[x]`. Every read in the source is guarded by `ref_.count(x)`, so the
default of `operator[]` for a missing key (0) is never inserted. -/
def refAt (m : List (Int × Nat)) (x : Int) : Nat :=
  (refLookup m x).getD 0

/-- The assignment `ref_[x] = v` (insert or overwrite). -/
def refAssign : List (Int × Nat) → Int → Nat → List (Int × Nat)
  | [], x, v => [(x, v)]
  | (k, w) :: m, x, v => if x = k then (k, v) :: m else (k, w) :: refAssign m x v

/-- The call `ref_.erase(x)`. -/
def refErase (m : List (Int × Nat)) (x : Int) : List (Int × Nat) :=
  m.filter (fun p => decide (p.1 ≠ x))

/-! ## Private operations -/

/-- The parent index `(i-1)/2` computed in `size_t`: for `i = 0` the subtraction wraps to
`2^64 - 1`, so the result is `2^63 - 1`. -/
def parentOf (i : Nat) : Nat := ((i + (2 ^ 64 - 1)) % 2 ^ 64) / 2

/-- Embedding of `HeapTimer::SwapNode_(i, j)`: both asserts, the swap, and the two `ref_` updates. -/
def SwapNode_ (s : HeapTimer) (i j : Nat) : Res Unit :=
  match s.heap_[i]?, s.heap_[j]? with
  | some a, some b =>
      .ok () { s with
        heap_ := (s.heap_.set i b).set j a
        ref_ := refAssign (refAssign s.ref_ b.id i) a.id j }
  | _, _ => .fault .assertion s

/-- The `while(parent >= 0)` loop of `siftup_` (the condition is always true for a
`size_t`, so the loop is left through `break` only). The test `heap_[parent] > heap_[i]`
with `parent` past the end is the unchecked read described in the header: it is recorded in
`stray`, compares false, and the loop breaks. Each swap moves the entry to a strictly smaller
index, so `fuel = i` swaps are enough. -/
def siftupLoop : Nat → HeapTimer → Nat → Nat → Res Unit
  | 0, s, i, parent =>
    match s.heap_[parent]?, s.heap_[i]? with
    | none, some _ => .ok () { s with stray := s.stray ++ [parent] }
    | _, none => .fault (.outOfRange i) s
    | some p, some c => if p.expires > c.expires then .fault .fuel s else .ok () s
  | f + 1, s, i, parent =>
    match s.heap_[parent]?, s.heap_[i]? with
    | none, some _ => .ok () { s with stray := s.stray ++ [parent] }
    | _, none => .fault (.outOfRange i) s
    | some p, some c =>
        if p.expires > c.expires then
          (SwapNode_ s i parent).bind fun _ s1 => siftupLoop f s1 parent (parentOf parent)
        else .ok () s

/-- Embedding of `HeapTimer::siftup_(i)`. -/
def siftup_ (s : HeapTimer) (i : Nat) : Res Unit :=
  if i < s.heap_.length then siftupLoop i s i (parentOf i) else .fault .assertion s

/-- Embedding of `HeapTimer::siftdown_(i, n)`. The body of `while(child < n)` ends in an unconditional
`break`, so it runs at most once; the result is `index > i`. No index reaches `2^63`, so
`2*index+1` does not wrap. -/
def siftdown_ (s : HeapTimer) (i n : Nat) : Res Bool :=
  if i < s.heap_.length ∧ n ≤ s.heap_.length then
    let index := i
    let child := 2 * index + 1
    if child < n then
      match s.heap_[index]?, s.heap_[child]?, s.heap_[child + 1]? with
      | some x, some l, r? =>
          let child1 :=
            match r? with
            | some r => if child + 1 < n ∧ r.expires < l.expires then child + 1 else child
            | none => child
          match s.heap_[child1]? with
          | some c =>
              if c.expires < x.expires then
                (SwapNode_ s index child1).bind fun _ s1 => .ok (decide (child1 > i)) s1
              else .ok (decide (index > i)) s
          | none => .fault (.outOfRange child1) s
      | none, _, _ => .fault (.outOfRange index) s
      | _, none, _ => .fault (.outOfRange child) s
    else .ok (decide (index > i)) s
  else .fault .assertion s

/-- The `if(index < heap_.size()-1)` block of `del_`: swap the entry with the back one,
then sift the incoming entry down within the first `n = heap_.size()-1` entries and, if it
did not move, up. -/
def moveToBack (s : HeapTimer) (index : Nat) : Res Unit :=
  let tmp := index
  let n := s.heap_.length - 1
  if index < s.heap_.length - 1 then
    (SwapNode_ s tmp (s.heap_.length - 1)).bind fun _ s1 =>
      (siftdown_ s1 tmp n).bind fun moved s2 =>
        if !moved then siftup_ s2 tmp else .ok () s2
  else .ok () s

/-- The last two statements of `del_`: `ref_.erase(heap_.back().id); heap_.pop_back();`. -/
def popBack (s : HeapTimer) : Res Unit :=
  match s.heap_.getLast? with
  | some b => .ok () { s with ref_ := refErase s.ref_ b.id, heap_ := s.heap_.dropLast }
  | none => .fault (.outOfRange 0) s

/-- Embedding of `HeapTimer::del_(index)`: move the entry to the back, re-balance the first
`heap_.size()-1` entries, then erase the back entry from `ref_` and `heap_`. -/
def del_ (s : HeapTimer) (index : Nat) : Res Unit :=
  if index < s.heap_.length then
    (moveToBack s index).bind fun _ s3 => popBack s3
  else .fault .assertion s

/-! ## Public operations -/

/-- Embedding of `HeapTimer::adjust(id, newExpires)` with `Clock::now() = now`. -/
def adjust (now : Int) (s : HeapTimer) (id : Int) (newExpires : Int) : Res Unit :=
  if ¬ s.heap_.isEmpty ∧ refCount s.ref_ id ≠ 0 then
    let k := refAt s.ref_ id
    match s.heap_[k]? with
    | some n =>
        let s1 := { s with heap_ := s.heap_.set k { n with expires := now + MS newExpires } }
        (siftdown_ s1 (refAt s1.ref_ id) s1.heap_.length).bind fun _ s2 => .ok () s2
    | none => .fault (.outOfRange k) s
  else .fault .assertion s

/-- Embedding of `HeapTimer::add(id, timeOut, cb)` with `Clock::now() = now`. -/
def add (now : Int) (s : HeapTimer) (id : Int) (timeOut : Int) (cb : Nat) : Res Unit :=
  if 0 ≤ id then
    if refCount s.ref_ id ≠ 0 then
      let tmp := refAt s.ref_ id
      match s.heap_[tmp]? with
      | some n =>
          let s1 := { s with
            heap_ := s.heap_.set tmp { n with expires := now + MS timeOut, cb := cb } }
          (siftdown_ s1 tmp s1.heap_.length).bind fun moved s2 =>
            if !moved then siftup_ s2 tmp else .ok () s2
      | none => .fault (.outOfRange tmp) s
    else
      let n := s.heap_.length
      let s1 := { s with
        ref_ := refAssign s.ref_ id n
        heap_ := s.heap_ ++ [{ id := id, expires := now + MS timeOut, cb := cb }] }
      siftup_ s1 n
  else .fault .assertion s

/-- Embedding of `HeapTimer::doWork(id)`. -/
def doWork (s : HeapTimer) (id : Int) : Res Unit :=
  if s.heap_.isEmpty ∨ refCount s.ref_ id = 0 then .ok () s
  else
    let i := refAt s.ref_ id
    match s.heap_[i]? with
    | some node => del_ { s with fired := s.fired ++ [(node.cb, node.id)] } i
    | none => .fault (.outOfRange i) s

/-- Embedding of `HeapTimer::pop()`. -/
def pop (s : HeapTimer) : Res Unit :=
  if ¬ s.heap_.isEmpty then del_ s 0 else .fault .assertion s

/-- The `while(!heap_.empty())` loop of `tick`; `clock k` is the value of the `k`-th
`Clock::now()` read from here on (one reading per iteration). Each iteration that continues
removes one entry, so `fuel = heap_.size()` iterations are enough. -/
def tickLoop : Nat → (Nat → Int) → HeapTimer → Res Unit
  | 0, clock, s =>
    match s.heap_.head? with
    | none => .ok () s
    | some node =>
        if durationCastMS (node.expires - clock 0) > 0 then .ok () s else .fault .fuel s
  | f + 1, clock, s =>
    match s.heap_.head? with
    | none => .ok () s
    | some node =>
        if durationCastMS (node.expires - clock 0) > 0 then .ok () s
        else
          (pop { s with fired := s.fired ++ [(node.cb, node.id)] }).bind fun _ s1 =>
            tickLoop f (fun k => clock (k + 1)) s1

/-- Embedding of `HeapTimer::tick()` where the `k`-th reading of `Clock::now()` during the
call is `clock k`. -/
def tickAt (clock : Nat → Int) (s : HeapTimer) : Res Unit :=
  if s.heap_.isEmpty then .ok () s else tickLoop s.heap_.length clock s

/-- Embedding of `HeapTimer::tick()` with the clock held at `now` during the call. -/
def tick (now : Int) (s : HeapTimer) : Res Unit :=
  tickAt (fun _ => now) s

/-- The index-map invariant: the keys of `ref_` are exactly the ids in `heap_`, the ids are
pairwise distinct, and `ref_[heap_[i].id] == i` at every position `i`. -/
def IndexInv (s : HeapTimer) : Prop :=
  (∀ k ∈ s.ref_.map Prod.fst, k ∈ s.heap_.map TimerNode.id) ∧
  (∀ k ∈ s.heap_.map TimerNode.id, k ∈ s.ref_.map Prod.fst) ∧
  (s.heap_.map TimerNode.id).Nodup ∧
  ∀ i (h : i < s.heap_.length), refLookup s.ref_ (s.heap_[i]).id = some i

instance (s : HeapTimer) : Decidable (IndexInv s) := by
  unfold IndexInv; infer_instance

/-- The min-heap property on `expires`: `heap_[(i-1)/2].expires <= heap_[i].expires` at
every position `i > 0`. -/
def MinHeap (s : HeapTimer) : Prop :=
  ∀ i (h : i < s.heap_.length), 0 < i →
    (s.heap_[(i - 1) / 2]).expires ≤ (s.heap_[i]).expires

instance (s : HeapTimer) : Decidable (MinHeap s) := by
  unfold MinHeap; infer_instance

/-- The index-map invariant in lookup form: every position is recorded under its id, and
every key of `ref_` leads to a position holding that id. -/
def Linked (s : HeapTimer) : Prop :=
  (∀ i n, s.heap_[i]? = some n → refLookup s.ref_ n.id = some i) ∧
  (∀ k v, refLookup s.ref_ k = some v → ∃ n, s.heap_[v]? = some n ∧ n.id = k)

/-- Relation between the state `s` before and `s'` after a re-balancing step that touches
only positions below `n`: `heap_` is permuted, positions from `n` on are unchanged, and no
callback was invoked. -/
def Frame (n : Nat) (s s' : HeapTimer) : Prop :=
  s'.heap_.Perm s.heap_ ∧ (∀ k, n ≤ k → s'.heap_[k]? = s.heap_[k]?) ∧ s'.fired = s.fired

/-- The call did not end because the iteration bound of the embedding ran out. -/
def Res.fuelFree {α : Type} (r : Res α) : Prop := ∀ s, r ≠ .fault .fuel s

/-- A heap built from `(id, expires, cb)` triples laid out in array order, with `ref_`
mapping each id to its position and both logs empty. -/
def mkTimer (l : List (Int × Int × Nat)) : HeapTimer :=
  { heap_ := l.map fun t => { id := t.1, expires := t.2.1, cb := t.2.2 }
    ref_ := l.enum.map fun p => (p.2.1, p.1)
    fired := []
    stray := [] }

/-- The timer whose entries, in array order, have ids `1, 2, ...`, callbacks `1, 2, ...` and
the given deadlines in milliseconds. -/
def timerOfMs (l : List Int) : HeapTimer :=
  mkTimer (l.enum.map fun p => ((p.1 : Int) + 1, MS p.2, p.1 + 1))

/-! ## GetNextTick and the timer handler -/

/-- Conversion of a signed 64-bit count to `size_t`: the value modulo `2^64`. -/
def toSizeT (x : Int) : Nat := (x % 2 ^ 64).toNat

/-- Conversion of a `size_t` to `int` as GCC and Clang perform it (and as C++20 prescribes):
the low 32 bits, read as two's complement. -/
def toInt (n : Nat) : Int :=
  if n % 2 ^ 32 < 2 ^ 31 then ((n % 2 ^ 32 : Nat) : Int)
  else ((n % 2 ^ 32 : Nat) : Int) - 2 ^ 32

/-- Embedding of `HeapTimer::GetNextTick()`. The sweep reads the clock as `clock k` at its
`k`-th iteration; `last` is the reading taken afterwards for `heap_.front().expires -
Clock::now()`. `res` is a `size_t`, so the test `res < 0` compares natural numbers. -/
def GetNextTick (clock : Nat → Int) (last : Int) (s : HeapTimer) : Res Int :=
  (tickAt clock s).bind fun _ s1 =>
    let res : Nat := toSizeT (-1)
    let res : Nat :=
      match s1.heap_.head? with
      | some front =>
          let res := toSizeT (durationCastMS (front.expires - last))
          if res < 0 then 0 else res
      | none => res
    .ok (toInt res) s1

/-- What `Utils::timer_handler` asks of the operating system: `setitimer(ITIMER_REAL, ..)`
with the four fields of the `itimerval`, or `alarm(seconds)`. -/
inductive Armed where
  | setitimer (it_value_sec it_value_usec it_interval_sec it_interval_usec : Int)
  | alarm (seconds : Int)
deriving DecidableEq

/-- Embedding of `Utils::timer_handler()`: `m_heap.tick()` (clock readings `clock1`), then
`m_heap.GetNextTick()` (readings `clock2`, then `last`), then the arming. -/
def timer_handler (m_TIMESLOT : Int) (clock1 clock2 : Nat → Int) (last : Int)
    (s : HeapTimer) : Res Armed :=
  (tickAt clock1 s).bind fun _ s1 =>
    (GetNextTick clock2 last s1).bind fun ms s2 =>
      if ms > 0 then .ok (.setitimer 0 ms 0 0) s2 else .ok (.alarm m_TIMESLOT) s2

/-- Microseconds denoted by the `it_value` of an armed interval timer. -/
def Armed.valueMicros : Armed → Option Int
  | .setitimer sec usec _ _ => some (sec * 1000000 + usec)
  | .alarm _ => none

/-- The min-heap property among the first `n` entries at every position whose parent is
not `i`: the shape `siftdown_(i, n)` is called on. -/
def MinHeapExcept (i n : Nat) (s : HeapTimer) : Prop :=
  ∀ j (h : j < s.heap_.length), j < n → 0 < j → (j - 1) / 2 ≠ i →
    (s.heap_[(j - 1) / 2]).expires ≤ (s.heap_[j]).expires

instance (i n : Nat) (s : HeapTimer) : Decidable (MinHeapExcept i n s) := by
  unfold MinHeapExcept; infer_instance

/-- The min-heap property among the first `n` entries of `heap_`. -/
def MinHeapUpTo (n : Nat) (s : HeapTimer) : Prop :=
  ∀ j (h : j < s.heap_.length), j < n → 0 < j →
    (s.heap_[(j - 1) / 2]).expires ≤ (s.heap_[j]).expires

instance (n : Nat) (s : HeapTimer) : Decidable (MinHeapUpTo n s) := by
  unfold MinHeapUpTo; infer_instance

/-! ## Readiness registration (`Utils::setnonblocking`, `Utils::addfd`) -/

/-- Linux value of `EPOLLIN`. -/
def EPOLLIN : Nat := 0x001

/-- Linux value of `EPOLLRDHUP`. -/
def EPOLLRDHUP : Nat := 0x2000

/-- Linux value of `EPOLLET` (`1u << 31`). -/
def EPOLLET : Nat := 2 ^ 31

/-- Linux value of `EPOLLONESHOT` (`1u << 30`). -/
def EPOLLONESHOT : Nat := 2 ^ 30

/-- Linux value of `O_NONBLOCK` (octal 04000, bit 11). -/
def O_NONBLOCK : Int := 2048

/-- Embedding of `Utils::setnonblocking(fd)`: `old_option` is what `fcntl(fd, F_GETFL)`
returned; the result is the pair of the value passed to `fcntl(fd, F_SETFL, ..)` and the
value returned to the caller. -/
def setnonblocking (old_option : Int) : Int × Int :=
  let new_option := Int.lor old_option O_NONBLOCK
  (new_option, old_option)

/-- Embedding of `Utils::addfd(epollfd, fd, one_shot, TRIGMode)`: the `events` mask handed to
`epoll_ctl(epollfd, EPOLL_CTL_ADD, fd, &event)` and the flags word handed to
`fcntl(fd, F_SETFL, ..)` by `setnonblocking(fd)`. -/
def addfd (old_option : Int) (one_shot : Bool) (TRIGMode : Int) : Nat × Int :=
  let events := if 1 = TRIGMode then EPOLLIN ||| EPOLLET ||| EPOLLRDHUP
                else EPOLLIN ||| EPOLLRDHUP
  let events := if one_shot then events ||| EPOLLONESHOT else events
  (events, (setnonblocking old_option).1)

/-! ## Synchronisation primitives (`src/lock/locker.h`) -/

/-- How a call on a primitive ends: it returns to the caller, or it takes the panic path of
`CondPanic` (diagnostic, then `assert(condition)` with a false condition). -/
inductive Exit where
  | returns
  | panics
deriving DecidableEq

/-- Embedding of `CondPanic(condition, err)`. -/
def CondPanic (condition : Bool) : Exit :=
  if !condition then .panics else .returns

/-- Linux value of `ETIMEDOUT`. -/
def ETIMEDOUT : Int := 110

/-- Constructor `Semaphore(count)`; `rc` is what `sem_init` returned. -/
def Semaphore.init (rc : Int) : Exit := CondPanic (decide (0 = rc))

/-- Destructor of `Semaphore`; `rc` is what `sem_destroy` returned. -/
def Semaphore.destroy (rc : Int) : Exit := CondPanic (decide (0 = rc))

/-- Embedding of `Semaphore::wait()`; `rc` is what `sem_wait` returned. -/
def Semaphore.wait (rc : Int) : Exit := CondPanic (decide (0 = rc))

/-- Embedding of `Semaphore::notify()`; `rc` is what `sem_post` returned. -/
def Semaphore.notify (rc : Int) : Exit := CondPanic (decide (0 = rc))

/-- Constructor `Mutex()`; `rc` is what `pthread_mutex_init` returned. -/
def Mutex.init (rc : Int) : Exit := CondPanic (decide (0 = rc))

/-- Destructor of `Mutex`; `rc` is what `pthread_mutex_destroy` returned. -/
def Mutex.destroy (rc : Int) : Exit := CondPanic (decide (0 = rc))

/-- Embedding of `Mutex::lock()`; `rc` is what `pthread_mutex_lock` returned. -/
def Mutex.lock (rc : Int) : Exit := CondPanic (decide (0 = rc))

/-- Embedding of `Mutex::unlock()`; `rc` is what `pthread_mutex_unlock` returned. -/
def Mutex.unlock (rc : Int) : Exit := CondPanic (decide (0 = rc))

/-- Constructor `RWMutex()`: the result `rc` of `pthread_rwlock_init` is discarded. -/
def RWMutex.init (_rc : Int) : Exit := .returns

/-- Destructor of `RWMutex`: the result `rc` of `pthread_rwlock_destroy` is discarded. -/
def RWMutex.destroy (_rc : Int) : Exit := .returns

/-- Embedding of `RWMutex::rdlock()`: the result of `pthread_rwlock_rdlock` is discarded. -/
def RWMutex.rdlock (_rc : Int) : Exit := .returns

/-- Embedding of `RWMutex::wrlock()`: the result of `pthread_rwlock_wrlock` is discarded. -/
def RWMutex.wrlock (_rc : Int) : Exit := .returns

/-- Embedding of `RWMutex::unlock()`: the result of `pthread_rwlock_unlock` is discarded. -/
def RWMutex.unlock (_rc : Int) : Exit := .returns

/-- Constructor `CondVar()`; `rc` is what `pthread_cond_init` returned. -/
def CondVar.init (rc : Int) : Exit := CondPanic (decide (0 = rc))

/-- Destructor of `CondVar`; `rc` is what `pthread_cond_destroy` returned. -/
def CondVar.destroy (rc : Int) : Exit := CondPanic (decide (0 = rc))

/-- Embedding of `CondVar::wait(mutex)`; `rc` is what `pthread_cond_wait` returned. -/
def CondVar.wait (rc : Int) : Exit := CondPanic (decide (0 = rc))

/-- Embedding of `CondVar::timewait(mutex, t)`; `rc` is what `pthread_cond_timedwait`
returned. -/
def CondVar.timewait (rc : Int) : Exit := CondPanic (decide (0 = rc))

/-- Embedding of `CondVar::signal()`; `rc` is what `pthread_cond_signal` returned. -/
def CondVar.signal (rc : Int) : Exit := CondPanic (decide (0 = rc))

/-- Embedding of `CondVar::broadcast()`; `rc` is what `pthread_cond_broadcast` returned. -/
def CondVar.broadcast (rc : Int) : Exit := CondPanic (decide (0 = rc))

/-! ## Scope guards (`ScopedLockImpl`, `ReadScopedLockImpl`, `WriteScopedLockImpl`) -/

/-- A call delivered to the lock a guard wraps. -/
inductive LockCall where
  | lock
  | rdlock
  | wrlock
  | unlock
deriving DecidableEq

/-- The three guard templates of `locker.h`. -/
inductive GuardKind where
  | ScopedLockImpl
  | ReadScopedLockImpl
  | WriteScopedLockImpl
deriving DecidableEq

/-- The acquiring call of each template: `m_.lock()`, `mutex_.rdlock()`, `mutex_.wrlock()`. -/
def GuardKind.acquire : GuardKind → LockCall
  | .ScopedLockImpl => .lock
  | .ReadScopedLockImpl => .rdlock
  | .WriteScopedLockImpl => .wrlock

/-- A guard object: the member `isLocked_`, and the calls it has delivered to the wrapped
lock so far, oldest first (the lock itself is a reference held by the guard). -/
structure Guard where
  isLocked_ : Bool
  calls : List LockCall
deriving DecidableEq

/-- Constructor of a guard: acquire, then `isLocked_ = true`. -/
def Guard.construct (k : GuardKind) : Guard :=
  { isLocked_ := true, calls := [k.acquire] }

/-- Member `lock()` of a guard. -/
def Guard.lock (k : GuardKind) (g : Guard) : Guard :=
  if !g.isLocked_ then { isLocked_ := true, calls := g.calls ++ [k.acquire] } else g

/-- Member `unlock()` of a guard. -/
def Guard.unlock (g : Guard) : Guard :=
  if g.isLocked_ then { isLocked_ := false, calls := g.calls ++ [.unlock] } else g

/-- Destructor of a guard: `unlock()`. -/
def Guard.destruct (g : Guard) : Guard := g.unlock

/-- A call made on a guard by its owner between construction and destruction. -/
inductive GuardOp where
  | lock
  | unlock
deriving DecidableEq

/-- One owner call applied to the guard. -/
def Guard.step (k : GuardKind) (g : Guard) : GuardOp → Guard
  | .lock => g.lock k
  | .unlock => g.unlock

/-- The whole life of a guard: construction, the owner's calls in order, destruction. -/
def Guard.lifetime (k : GuardKind) (ops : List GuardOp) : Guard :=
  (ops.foldl (Guard.step k) (Guard.construct k)).destruct

/-- The call sequence `acquire, release` repeated `n` times. -/
def alternating (acq : LockCall) : Nat → List LockCall
  | 0 => []
  | n + 1 => acq :: LockCall.unlock :: alternating acq n

/-! ## Lemmas on the map `ref_` -/

theorem refLookup_refAssign (m : List (Int × Nat)) (x y : Int) (v : Nat) :
    refLookup (refAssign m x v) y = if y = x then some v else refLookup m y := by
  induction m with
  | nil => simp [refAssign, refLookup]
  | cons p m ih =>
    obtain ⟨k, w⟩ := p
    by_cases hxk : x = k
    · subst hxk
      by_cases hyx : y = x <;> simp [refAssign, refLookup, hyx]
    · by_cases hyk : y = k
      · subst hyk
        have : ¬ y = x := fun h => hxk h.symm
        simp [refAssign, refLookup, hxk, this]
      · simp [refAssign, refLookup, hxk, hyk, ih]

theorem refLookup_refErase (m : List (Int × Nat)) (x y : Int) :
    refLookup (refErase m x) y = if y = x then none else refLookup m y := by
  induction m with
  | nil => simp [refErase, refLookup]
  | cons p m ih =>
    obtain ⟨k, w⟩ := p
    unfold refErase at ih ⊢
    by_cases hkx : k = x
    · subst hkx
      by_cases hyk : y = k
      · simp [List.filter_cons, refLookup, hyk] at ih ⊢
        simpa [hyk] using ih
      · simp [List.filter_cons, refLookup, hyk] at ih ⊢
        simpa [hyk] using ih
    · by_cases hyk : y = k
      · subst hyk
        simp [List.filter_cons, refLookup, hkx]
      · simp [List.filter_cons, refLookup, hkx, hyk]
        simpa using ih

theorem refLookup_isSome_iff (m : List (Int × Nat)) (x : Int) :
    (refLookup m x).isSome ↔ x ∈ m.map Prod.fst := by
  induction m with
  | nil => simp [refLookup]
  | cons p m ih =>
    obtain ⟨k, w⟩ := p
    by_cases hxk : x = k
    · simp [refLookup, hxk]
    · simp [refLookup, hxk] at ih ⊢
      exact ih

/-! ## The index-map invariant is kept by every operation -/

theorem Res.bind_state {α β : Type} (P : HeapTimer → Prop) (r : Res α)
    (k : α → HeapTimer → Res β) (h1 : P r.state)
    (h2 : ∀ a s, r = .ok a s → P (k a s).state) : P (r.bind k).state := by
  cases r with
  | ok a s => exact h2 a s rfl
  | fault f s => exact h1

theorem swap_getElem? {l : List TimerNode} {i j : Nat} {a b : TimerNode}
    (hi : l[i]? = some a) (hj : l[j]? = some b) (p : Nat) :
    ((l.set i b).set j a)[p]? = if p = j then some a else if p = i then some b else l[p]? := by
  have hil : i < l.length := (List.getElem?_eq_some_iff.mp hi).1
  have hjl : j < l.length := (List.getElem?_eq_some_iff.mp hj).1
  rw [List.getElem?_set, List.getElem?_set]
  by_cases hpj : p = j
  · subst hpj
    simp [hjl]
  · have hjp : ¬ j = p := fun h => hpj h.symm
    by_cases hpi : p = i
    · subst hpi
      simp [hjp, hil, hpj]
    · have hip : ¬ i = p := fun h => hpi h.symm
      simp [hjp, hip, hpj, hpi]

theorem Res.state_of_ok {α : Type} {P : HeapTimer → Prop} {r : Res α} {a : α} {s1 : HeapTimer}
    (h : P r.state) (e : r = .ok a s1) : P s1 := by
  subst e; exact h

theorem linked_swap (s : HeapTimer) (i j : Nat) (h : Linked s) :
    Linked (SwapNode_ s i j).state := by
  unfold SwapNode_
  split
  next a b hi hj =>
    obtain ⟨ha, hb⟩ := h
    have hai := ha i a hi
    have hbj := ha j b hj
    have hab : a.id = b.id → i = j := by
      intro he
      rw [he, hbj] at hai
      exact (Option.some.inj hai).symm
    simp only [Res.state]
    refine ⟨?_, ?_⟩
    · intro p n hp
      simp only [swap_getElem? hi hj] at hp
      simp only [refLookup_refAssign]
      by_cases hpj : p = j
      · simp only [hpj, if_true] at hp
        have hn : a = n := Option.some.inj hp
        simp [hpj, ← hn]
      · simp only [hpj, if_false] at hp
        by_cases hpi : p = i
        · simp only [hpi, if_true] at hp
          have hn : b = n := Option.some.inj hp
          have hne : ¬ n.id = a.id := by
            intro he
            rw [← hn] at he
            exact hpj (hpi.trans (hab he.symm))
          rw [if_neg hne, ← hn, if_pos rfl, hpi]
        · simp only [hpi, if_false] at hp
          have hpn := ha p n hp
          have hne1 : ¬ n.id = a.id := by
            intro he
            rw [he, hai] at hpn
            exact hpi (Option.some.inj hpn).symm
          have hne2 : ¬ n.id = b.id := by
            intro he
            rw [he, hbj] at hpn
            exact hpj (Option.some.inj hpn).symm
          simp [hne1, hne2, hpn]
    · intro k v hkv
      simp only [refLookup_refAssign] at hkv
      simp only [swap_getElem? hi hj]
      by_cases hka : k = a.id
      · simp only [hka, if_true] at hkv
        have hv : j = v := Option.some.inj hkv
        exact ⟨a, by simp [← hv], hka.symm⟩
      · simp only [hka, if_false] at hkv
        by_cases hkb : k = b.id
        · simp only [hkb, if_true] at hkv
          have hv : i = v := Option.some.inj hkv
          have hvj : ¬ v = j := by
            intro he
            rw [← hv] at he
            rw [he, hj] at hi
            have : b = a := Option.some.inj hi
            exact hka (by rw [hkb, this])
          exact ⟨b, by rw [if_neg hvj, if_pos hv.symm], hkb.symm⟩
        · simp only [hkb, if_false] at hkv
          obtain ⟨n, hn, hnk⟩ := hb k v hkv
          have hvj : ¬ v = j := by
            intro he
            rw [he, hj] at hn
            have : b = n := Option.some.inj hn
            exact hkb (by rw [this, hnk])
          have hvi : ¬ v = i := by
            intro he
            rw [he, hi] at hn
            have : a = n := Option.some.inj hn
            exact hka (by rw [this, hnk])
          exact ⟨n, by simp [hvj, hvi, hn], hnk⟩
  next => exact h

theorem keeps_siftupLoop (P : HeapTimer → Prop)
    (hswap : ∀ s i j, P s → P (SwapNode_ s i j).state)
    (hstray : ∀ s l, P s → P { s with stray := l })
    (fuel : Nat) (s : HeapTimer) (i parent : Nat) (h : P s) :
    P (siftupLoop fuel s i parent).state := by
  induction fuel generalizing s i parent with
  | zero =>
    unfold siftupLoop
    split
    · exact hstray s _ h
    · exact h
    · split <;> exact h
  | succ f ih =>
    unfold siftupLoop
    split
    · exact hstray s _ h
    · exact h
    · split
      · exact Res.bind_state P _ _ (hswap s i parent h)
          (fun a s1 hs1 => ih s1 _ _ (Res.state_of_ok (hswap s i parent h) hs1))
      · exact h

theorem keeps_siftup (P : HeapTimer → Prop)
    (hswap : ∀ s i j, P s → P (SwapNode_ s i j).state)
    (hstray : ∀ s l, P s → P { s with stray := l })
    (s : HeapTimer) (i : Nat) (h : P s) : P (siftup_ s i).state := by
  unfold siftup_
  split
  · exact keeps_siftupLoop P hswap hstray _ _ _ _ h
  · exact h

theorem keeps_siftdown (P : HeapTimer → Prop)
    (hswap : ∀ s i j, P s → P (SwapNode_ s i j).state)
    (s : HeapTimer) (i n : Nat) (h : P s) : P (siftdown_ s i n).state := by
  unfold siftdown_
  split
  · simp only []
    split
    · split
      · split
        · split
          · exact Res.bind_state P _ _ (hswap s _ _ h)
              (fun a s1 hs1 => Res.state_of_ok (hswap s _ _ h) hs1)
          · exact h
        · exact h
      · exact h
      · exact h
    · exact h
  · exact h

theorem keeps_moveToBack (P : HeapTimer → Prop)
    (hswap : ∀ s i j, P s → P (SwapNode_ s i j).state)
    (hstray : ∀ s l, P s → P { s with stray := l })
    (s : HeapTimer) (index : Nat) (h : P s) : P (moveToBack s index).state := by
  unfold moveToBack
  simp only []
  split
  · apply Res.bind_state P _ _ (hswap s _ _ h)
    intro _ s1 hs1
    have h1 : P s1 := Res.state_of_ok (hswap s _ _ h) hs1
    apply Res.bind_state P _ _ (keeps_siftdown P hswap s1 _ _ h1)
    intro moved s2 hs2
    have h2 : P s2 := Res.state_of_ok (keeps_siftdown P hswap s1 _ _ h1) hs2
    split
    · exact keeps_siftup P hswap hstray s2 _ h2
    · exact h2
  · exact h

theorem keeps_del (P : HeapTimer → Prop)
    (hswap : ∀ s i j, P s → P (SwapNode_ s i j).state)
    (hstray : ∀ s l, P s → P { s with stray := l })
    (hback : ∀ s, P s → P (popBack s).state)
    (s : HeapTimer) (index : Nat) (h : P s) : P (del_ s index).state := by
  unfold del_
  split
  · apply Res.bind_state P _ _ (keeps_moveToBack P hswap hstray s index h)
    intro _ s3 hs3
    exact hback s3 (Res.state_of_ok (keeps_moveToBack P hswap hstray s index h) hs3)
  · exact h

theorem keeps_pop (P : HeapTimer → Prop)
    (hswap : ∀ s i j, P s → P (SwapNode_ s i j).state)
    (hstray : ∀ s l, P s → P { s with stray := l })
    (hback : ∀ s, P s → P (popBack s).state)
    (s : HeapTimer) (h : P s) : P (pop s).state := by
  unfold pop
  split
  · exact keeps_del P hswap hstray hback s 0 h
  · exact h

theorem refCount_eq_zero_iff (m : List (Int × Nat)) (x : Int) :
    refCount m x = 0 ↔ refLookup m x = none := by
  unfold refCount
  cases h : refLookup m x <;> simp

theorem linked_fired (s : HeapTimer) (f : List (Nat × Int)) (h : Linked s) :
    Linked { s with fired := f } := h

theorem linked_removeLast (s : HeapTimer) (b : TimerNode) (h : Linked s)
    (hlast : s.heap_.getLast? = some b) :
    Linked { s with ref_ := refErase s.ref_ b.id, heap_ := s.heap_.dropLast } := by
  obtain ⟨ha, hb⟩ := h
  rw [List.getLast?_eq_getElem?] at hlast
  have hbl := ha _ b hlast
  refine ⟨?_, ?_⟩
  · intro i m him
    simp only [List.getElem?_dropLast] at him
    simp only [refLookup_refErase]
    by_cases hil : i < s.heap_.length - 1
    · simp only [hil, if_true] at him
      have hm := ha i m him
      have hne : ¬ m.id = b.id := by
        intro he
        rw [he, hbl] at hm
        have := Option.some.inj hm
        omega
      rw [if_neg hne]
      exact hm
    · simp only [hil, if_false] at him
      cases him
  · intro x v hxv
    simp only [refLookup_refErase] at hxv
    by_cases hx : x = b.id
    · simp only [hx, if_true] at hxv
      cases hxv
    · simp only [hx, if_false] at hxv
      obtain ⟨m, hm, hmx⟩ := hb x v hxv
      have hvl : v < s.heap_.length := (List.getElem?_eq_some_iff.mp hm).1
      have hvne : v ≠ s.heap_.length - 1 := by
        intro he
        rw [he, hlast] at hm
        have : b = m := Option.some.inj hm
        exact hx (by rw [this, hmx])
      have : v < s.heap_.length - 1 := by omega
      exact ⟨m, by rw [List.getElem?_dropLast, if_pos this]; exact hm, hmx⟩

theorem linked_popBack (s : HeapTimer) (h : Linked s) : Linked (popBack s).state := by
  unfold popBack
  split
  next b hb => exact linked_removeLast s b h hb
  next => exact h

theorem linked_pop (s : HeapTimer) (h : Linked s) : Linked (pop s).state :=
  keeps_pop Linked linked_swap (fun _ _ h => h) linked_popBack s h

theorem linked_tickLoop (fuel : Nat) (clock : Nat → Int) (s : HeapTimer) (h : Linked s) :
    Linked (tickLoop fuel clock s).state := by
  induction fuel generalizing s clock with
  | zero =>
    unfold tickLoop
    split
    · exact h
    · split <;> exact h
  | succ f ih =>
    unfold tickLoop
    split
    · exact h
    next node _ =>
      split
      · exact h
      · have hp := linked_pop _ (linked_fired s (s.fired ++ [(node.cb, node.id)]) h)
        exact Res.bind_state Linked _ _ hp (fun _ s1 hs1 => ih _ s1 (Res.state_of_ok hp hs1))

theorem linked_tickAt (clock : Nat → Int) (s : HeapTimer) (h : Linked s) :
    Linked (tickAt clock s).state := by
  unfold tickAt
  split
  · exact h
  · exact linked_tickLoop _ clock s h

theorem linked_tick (now : Int) (s : HeapTimer) (h : Linked s) :
    Linked (tick now s).state :=
  linked_tickAt _ s h

theorem swap_perm_cons {t : List TimerNode} {j : Nat} {b : TimerNode} (x : TimerNode)
    (hj : t[j]? = some b) : (b :: t.set j x).Perm (x :: t) := by
  induction t generalizing j with
  | nil => simp at hj
  | cons y t ih =>
    cases j with
    | zero =>
      simp only [List.getElem?_cons_zero, Option.some.injEq] at hj
      subst hj
      simpa using List.Perm.swap _ _ _
    | succ j =>
      simp only [List.getElem?_cons_succ] at hj
      simp only [List.set_cons_succ]
      exact (List.Perm.swap y b _).trans (((ih hj).cons y).trans (List.Perm.swap x y t))

theorem swap_perm {l : List TimerNode} {i j : Nat} {a b : TimerNode}
    (hi : l[i]? = some a) (hj : l[j]? = some b) : ((l.set i b).set j a).Perm l := by
  induction l generalizing i j with
  | nil => simp at hi
  | cons x t ih =>
    cases i with
    | zero =>
      simp only [List.getElem?_cons_zero, Option.some.injEq] at hi
      subst hi
      cases j with
      | zero =>
        simp only [List.getElem?_cons_zero, Option.some.injEq] at hj
        subst hj
        simp
      | succ j =>
        simp only [List.getElem?_cons_succ] at hj
        simp only [List.set_cons_zero, List.set_cons_succ]
        exact swap_perm_cons x hj
    | succ i =>
      simp only [List.getElem?_cons_succ] at hi
      cases j with
      | zero =>
        simp only [List.getElem?_cons_zero, Option.some.injEq] at hj
        subst hj
        simp only [List.set_cons_zero, List.set_cons_succ]
        exact swap_perm_cons x hi
      | succ j =>
        simp only [List.getElem?_cons_succ] at hj
        simp only [List.set_cons_succ]
        exact (ih hi hj).cons x

theorem Frame.refl (n : Nat) (s : HeapTimer) : Frame n s s :=
  ⟨List.Perm.refl _, fun _ _ => rfl, rfl⟩

theorem Frame.mono {n m : Nat} {s s' : HeapTimer} (hnm : n ≤ m) (h : Frame n s s') :
    Frame m s s' :=
  ⟨h.1, fun k hk => h.2.1 k (Nat.le_trans hnm hk), h.2.2⟩

theorem Frame.trans {n : Nat} {s s1 s2 : HeapTimer} (h1 : Frame n s s1) (h2 : Frame n s1 s2) :
    Frame n s s2 :=
  ⟨h2.1.trans h1.1, fun k hk => (h2.2.1 k hk).trans (h1.2.1 k hk), h2.2.2.trans h1.2.2⟩

theorem frame_swap {s s' : HeapTimer} {i j n : Nat} (h : SwapNode_ s i j = .ok () s')
    (hi : i < n) (hj : j < n) : Frame n s s' := by
  unfold SwapNode_ at h
  split at h
  next a b hia hjb =>
    simp only [Res.ok.injEq, true_and] at h
    subst h
    refine ⟨swap_perm hia hjb, ?_, rfl⟩
    intro k hk
    simp only [swap_getElem? hia hjb]
    rw [if_neg (by omega), if_neg (by omega)]
  next => cases h

theorem frame_siftdown {s s' : HeapTimer} {i n : Nat} {b : Bool}
    (h : siftdown_ s i n = .ok b s') : Frame n s s' := by
  unfold siftdown_ at h
  split at h
  · simp only [] at h
    split at h
    next hc =>
      split at h
      · split at h
        · split at h
          · rename_i l _ _ _ _ _ _
            have hlt : (match s.heap_[2 * i + 1 + 1]? with
                | some r =>
                  if 2 * i + 1 + 1 < n ∧ r.expires < l.expires then 2 * i + 1 + 1
                  else 2 * i + 1
                | none => 2 * i + 1) < n := by
              split
              · split
                · rename_i hlt
                  exact hlt.1
                · exact hc
              · exact hc
            generalize (match s.heap_[2 * i + 1 + 1]? with
                | some r =>
                  if 2 * i + 1 + 1 < n ∧ r.expires < l.expires then 2 * i + 1 + 1
                  else 2 * i + 1
                | none => 2 * i + 1) = ch at h hlt
            cases hsw : SwapNode_ s i ch with
            | ok u s1 =>
              rw [hsw] at h
              simp only [Res.bind, Res.ok.injEq] at h
              obtain ⟨_, rfl⟩ := h
              exact frame_swap hsw (by omega) hlt
            | fault f s1 =>
              rw [hsw] at h
              simp [Res.bind] at h
          · simp only [Res.ok.injEq] at h
            obtain ⟨_, rfl⟩ := h
            exact Frame.refl _ _
        · cases h
      · cases h
      · cases h
    · simp only [Res.ok.injEq] at h
      obtain ⟨_, rfl⟩ := h
      exact Frame.refl _ _
  · cases h

theorem parentOf_zero : parentOf 0 = 9223372036854775807 := by decide

theorem parentOf_pos {i : Nat} (h0 : 0 < i) (hi : i < 2 ^ 63) : parentOf i = (i - 1) / 2 := by
  unfold parentOf
  omega

theorem frame_siftupLoop {fuel : Nat} {s s' : HeapTimer} {i : Nat}
    (hsize : s.heap_.length < 2 ^ 63)
    (h : siftupLoop fuel s i (parentOf i) = .ok () s') : Frame (i + 1) s s' := by
  induction fuel generalizing s i with
  | zero =>
    unfold siftupLoop at h
    split at h
    · simp only [Res.ok.injEq, true_and] at h
      subst h
      exact ⟨List.Perm.refl _, fun _ _ => rfl, rfl⟩
    · cases h
    · split at h
      · cases h
      · simp only [Res.ok.injEq, true_and] at h
        subst h
        exact Frame.refl _ _
  | succ f ih =>
    unfold siftupLoop at h
    split at h
    · simp only [Res.ok.injEq, true_and] at h
      subst h
      exact ⟨List.Perm.refl _, fun _ _ => rfl, rfl⟩
    · cases h
    next p c hp hc =>
      split at h
      · have hpl : parentOf i < s.heap_.length := (List.getElem?_eq_some_iff.mp hp).1
        have hil : i < s.heap_.length := (List.getElem?_eq_some_iff.mp hc).1
        have hi0 : 0 < i := by
          rcases Nat.eq_zero_or_pos i with h0 | h0
          · rw [h0, parentOf_zero] at hpl
            omega
          · exact h0
        have hpar : parentOf i = (i - 1) / 2 := parentOf_pos hi0 (by omega)
        cases hsw : SwapNode_ s i (parentOf i) with
        | ok u s1 =>
          rw [hsw] at h
          simp only [Res.bind] at h
          have f1 : Frame (i + 1) s s1 := frame_swap hsw (by omega) (by omega)
          have hlen : s1.heap_.length = s.heap_.length := f1.1.length_eq
          have f2 := ih (by omega) h
          exact f1.trans (f2.mono (by omega))
        | fault e s1 =>
          rw [hsw] at h
          simp [Res.bind] at h
      · simp only [Res.ok.injEq, true_and] at h
        subst h
        exact Frame.refl _ _

theorem frame_siftup {s s' : HeapTimer} {i : Nat} (hsize : s.heap_.length < 2 ^ 63)
    (h : siftup_ s i = .ok () s') : Frame (i + 1) s s' := by
  unfold siftup_ at h
  split at h
  · exact frame_siftupLoop hsize h
  · cases h

theorem swap_at_right {s s' : HeapTimer} {i j : Nat} (h : SwapNode_ s i j = .ok () s') :
    s'.heap_[j]? = s.heap_[i]? := by
  unfold SwapNode_ at h
  split at h
  next a b hia hjb =>
    simp only [Res.ok.injEq, true_and] at h
    subst h
    simp only [swap_getElem? hia hjb, if_true, hia]
  next => cases h

theorem moveToBack_ok {s s' : HeapTimer} {index : Nat} {a : TimerNode}
    (hsize : s.heap_.length < 2 ^ 63) (ha : s.heap_[index]? = some a)
    (h : moveToBack s index = .ok () s') :
    s'.heap_.Perm s.heap_ ∧ s'.heap_[s.heap_.length - 1]? = some a ∧ s'.fired = s.fired := by
  have hil : index < s.heap_.length := (List.getElem?_eq_some_iff.mp ha).1
  unfold moveToBack at h
  simp only [] at h
  split at h
  next hlt =>
    cases hsw : SwapNode_ s index (s.heap_.length - 1) with
    | fault e s1 => rw [hsw] at h; simp [Res.bind] at h
    | ok u s1 =>
      rw [hsw] at h
      simp only [Res.bind] at h
      have f1 : Frame s.heap_.length s s1 := frame_swap hsw hil (by omega)
      have hb1 : s1.heap_[s.heap_.length - 1]? = some a := (swap_at_right hsw).trans ha
      cases hsd : siftdown_ s1 index (s.heap_.length - 1) with
      | fault e s2 => rw [hsd] at h; simp at h
      | ok moved s2 =>
        rw [hsd] at h
        simp only [] at h
        have f2 : Frame (s.heap_.length - 1) s1 s2 := frame_siftdown hsd
        have hb2 : s2.heap_[s.heap_.length - 1]? = some a :=
          (f2.2.1 _ (Nat.le_refl _)).trans hb1
        have hlen2 : s2.heap_.length = s.heap_.length :=
          f2.1.length_eq.trans f1.1.length_eq
        split at h
        · have f3 : Frame (index + 1) s2 s' := frame_siftup (by omega) h
          exact ⟨(f3.1.trans f2.1).trans f1.1,
            (f3.2.1 _ (by omega)).trans hb2,
            (f3.2.2.trans f2.2.2).trans f1.2.2⟩
        · simp only [Res.ok.injEq, true_and] at h
          subst h
          exact ⟨f2.1.trans f1.1, hb2, f2.2.2.trans f1.2.2⟩
  next hge =>
    simp only [Res.ok.injEq, true_and] at h
    subst h
    have : index = s.heap_.length - 1 := by omega
    exact ⟨List.Perm.refl _, this ▸ ha, rfl⟩

theorem popBack_ok {s s' : HeapTimer} {b : TimerNode}
    (hb : s.heap_[s.heap_.length - 1]? = some b) (h : popBack s = .ok () s') :
    s.heap_.Perm (b :: s'.heap_) ∧ s'.fired = s.fired := by
  rw [← List.getLast?_eq_getElem?] at hb
  unfold popBack at h
  rw [hb] at h
  simp only [Res.ok.injEq, true_and] at h
  subst h
  refine ⟨?_, rfl⟩
  have := List.dropLast_append_getLast? (l := s.heap_) b (Option.mem_def.mpr hb)
  exact (List.Perm.of_eq this.symm).trans (List.perm_append_singleton _ _)

theorem del_ok {s s' : HeapTimer} {index : Nat} {a : TimerNode}
    (hsize : s.heap_.length < 2 ^ 63) (ha : s.heap_[index]? = some a)
    (h : del_ s index = .ok () s') :
    s.heap_.Perm (a :: s'.heap_) ∧ s'.fired = s.fired := by
  unfold del_ at h
  split at h
  · cases hm : moveToBack s index with
    | fault e s3 => rw [hm] at h; simp [Res.bind] at h
    | ok u s3 =>
      rw [hm] at h
      simp only [Res.bind] at h
      obtain ⟨hp, hb, hf⟩ := moveToBack_ok hsize ha hm
      rw [← hp.length_eq] at hb
      obtain ⟨hp2, hf2⟩ := popBack_ok hb h
      exact ⟨hp.symm.trans hp2, hf2.trans hf⟩
  · cases h

theorem pop_ok {s s' : HeapTimer} {node : TimerNode}
    (hsize : s.heap_.length < 2 ^ 63) (hnode : s.heap_.head? = some node)
    (h : pop s = .ok () s') :
    s.heap_.Perm (node :: s'.heap_) ∧ s'.fired = s.fired := by
  rw [List.head?_eq_getElem?] at hnode
  unfold pop at h
  split at h
  · exact del_ok hsize hnode h
  · cases h


/-! ## The sweep loop -/

theorem fuelFree_ok {α : Type} (a : α) (s : HeapTimer) : (Res.ok a s).fuelFree := by
  intro t h; cases h

theorem fuelFree_assertion {α : Type} (s : HeapTimer) :
    (Res.fault Fault.assertion s : Res α).fuelFree := by
  intro t h; cases h

theorem fuelFree_outOfRange {α : Type} (k : Nat) (s : HeapTimer) :
    (Res.fault (Fault.outOfRange k) s : Res α).fuelFree := by
  intro t h; cases h

theorem fuelFree_bind {α β : Type} (r : Res α) (k : α → HeapTimer → Res β)
    (h1 : r.fuelFree) (h2 : ∀ a s, r = .ok a s → (k a s).fuelFree) : (r.bind k).fuelFree := by
  cases r with
  | ok a s => exact h2 a s rfl
  | fault f s =>
    intro t ht
    simp only [Res.bind, Res.fault.injEq] at ht
    exact h1 t (by rw [ht.1, ht.2])

theorem fuelFree_swap (s : HeapTimer) (i j : Nat) : (SwapNode_ s i j).fuelFree := by
  unfold SwapNode_
  split
  · exact fuelFree_ok _ _
  · exact fuelFree_assertion _

theorem fuelFree_siftupLoop (fuel : Nat) (s : HeapTimer) (i : Nat)
    (hsize : s.heap_.length < 2 ^ 63) (hfuel : i ≤ fuel) :
    (siftupLoop fuel s i (parentOf i)).fuelFree := by
  induction fuel generalizing s i with
  | zero =>
    have hi : i = 0 := by omega
    subst hi
    have hnone : s.heap_[parentOf 0]? = none := by
      rw [parentOf_zero]
      exact List.getElem?_eq_none (by omega)
    unfold siftupLoop
    split
    · exact fuelFree_ok _ _
    · exact fuelFree_outOfRange _ _
    next p c hp hc =>
      rw [hnone] at hp
      cases hp
  | succ f ih =>
    unfold siftupLoop
    split
    · exact fuelFree_ok _ _
    · exact fuelFree_outOfRange _ _
    next p c hp hc =>
      split
      · have hpl : parentOf i < s.heap_.length := (List.getElem?_eq_some_iff.mp hp).1
        have hil : i < s.heap_.length := (List.getElem?_eq_some_iff.mp hc).1
        have hi0 : 0 < i := by
          rcases Nat.eq_zero_or_pos i with h0 | h0
          · rw [h0, parentOf_zero] at hpl
            omega
          · exact h0
        have hpar : parentOf i = (i - 1) / 2 := parentOf_pos hi0 (by omega)
        apply fuelFree_bind _ _ (fuelFree_swap s i _)
        intro _ s1 hs1
        have f1 : Frame s.heap_.length s s1 := frame_swap hs1 hil hpl
        have hlen : s1.heap_.length = s.heap_.length := f1.1.length_eq
        exact ih s1 _ (by omega) (by omega)
      · exact fuelFree_ok _ _

theorem fuelFree_siftup (s : HeapTimer) (i : Nat) (hsize : s.heap_.length < 2 ^ 63) :
    (siftup_ s i).fuelFree := by
  unfold siftup_
  split
  · exact fuelFree_siftupLoop _ _ _ hsize (Nat.le_refl _)
  · exact fuelFree_assertion _

theorem fuelFree_siftdown (s : HeapTimer) (i n : Nat) : (siftdown_ s i n).fuelFree := by
  unfold siftdown_
  split
  · simp only []
    split
    · split
      · split
        · split
          · exact fuelFree_bind _ _ (fuelFree_swap _ _ _) (fun _ _ _ => fuelFree_ok _ _)
          · exact fuelFree_ok _ _
        · exact fuelFree_outOfRange _ _
      · exact fuelFree_outOfRange _ _
      · exact fuelFree_outOfRange _ _
    · exact fuelFree_ok _ _
  · exact fuelFree_assertion _

theorem fuelFree_moveToBack (s : HeapTimer) (index : Nat) (hsize : s.heap_.length < 2 ^ 63) :
    (moveToBack s index).fuelFree := by
  unfold moveToBack
  simp only []
  split
  next hlt =>
    apply fuelFree_bind _ _ (fuelFree_swap _ _ _)
    intro _ s1 hs1
    have f1 : Frame s.heap_.length s s1 := frame_swap hs1 (by omega) (by omega)
    apply fuelFree_bind _ _ (fuelFree_siftdown _ _ _)
    intro moved s2 hs2
    have f2 := frame_siftdown hs2
    split
    · exact fuelFree_siftup _ _ (by rw [f2.1.length_eq, f1.1.length_eq]; exact hsize)
    · exact fuelFree_ok _ _
  · exact fuelFree_ok _ _

theorem fuelFree_popBack (s : HeapTimer) : (popBack s).fuelFree := by
  unfold popBack
  split
  · exact fuelFree_ok _ _
  · exact fuelFree_outOfRange _ _

theorem fuelFree_del (s : HeapTimer) (index : Nat) (hsize : s.heap_.length < 2 ^ 63) :
    (del_ s index).fuelFree := by
  unfold del_
  split
  · exact fuelFree_bind _ _ (fuelFree_moveToBack s index hsize) (fun _ _ _ => fuelFree_popBack _)
  · exact fuelFree_assertion _

theorem fuelFree_pop (s : HeapTimer) (hsize : s.heap_.length < 2 ^ 63) : (pop s).fuelFree := by
  unfold pop
  split
  · exact fuelFree_del s 0 hsize
  · exact fuelFree_assertion _

theorem fuelFree_tickLoop (fuel : Nat) (clock : Nat → Int) (s : HeapTimer)
    (hsize : s.heap_.length < 2 ^ 63) (hfuel : s.heap_.length ≤ fuel) :
    (tickLoop fuel clock s).fuelFree := by
  induction fuel generalizing s clock with
  | zero =>
    have hnil : s.heap_ = [] := List.eq_nil_of_length_eq_zero (by omega)
    unfold tickLoop
    rw [hnil]
    exact fuelFree_ok _ _
  | succ f ih =>
    unfold tickLoop
    split
    · exact fuelFree_ok _ _
    next node hnode =>
      split
      · exact fuelFree_ok _ _
      · apply fuelFree_bind _ _
          (fuelFree_pop { s with fired := s.fired ++ [(node.cb, node.id)] } hsize)
        intro _ s1 hs1
        obtain ⟨hperm, -⟩ := pop_ok (s := { s with fired := s.fired ++ [(node.cb, node.id)] })
          hsize hnode hs1
        have hlen := hperm.length_eq
        simp only [List.length_cons] at hlen
        exact ih _ s1 (by omega) (by omega)

theorem fuelFree_tickAt (clock : Nat → Int) (s : HeapTimer)
    (hsize : s.heap_.length < 2 ^ 63) : (tickAt clock s).fuelFree := by
  unfold tickAt
  split
  · exact fuelFree_ok _ _
  · exact fuelFree_tickLoop _ clock s hsize (Nat.le_refl _)

theorem fuelFree_tick (now : Int) (s : HeapTimer) (hsize : s.heap_.length < 2 ^ 63) :
    (tick now s).fuelFree :=
  fuelFree_tickAt _ s hsize

theorem fuelFree_doWork (s : HeapTimer) (id : Int) (hsize : s.heap_.length < 2 ^ 63) :
    (doWork s id).fuelFree := by
  unfold doWork
  split
  · exact fuelFree_ok _ _
  · simp only []
    split
    · exact fuelFree_del _ _ hsize
    · exact fuelFree_outOfRange _ _

theorem fuelFree_adjust (now : Int) (s : HeapTimer) (id newExpires : Int) :
    (adjust now s id newExpires).fuelFree := by
  unfold adjust
  split
  · simp only []
    split
    · exact fuelFree_bind _ _ (fuelFree_siftdown _ _ _) (fun _ _ _ => fuelFree_ok _ _)
    · exact fuelFree_outOfRange _ _
  · exact fuelFree_assertion _

theorem fuelFree_add (now : Int) (s : HeapTimer) (id timeOut : Int) (cb : Nat)
    (hsize : s.heap_.length + 1 < 2 ^ 63) : (add now s id timeOut cb).fuelFree := by
  unfold add
  split
  · split
    · simp only []
      split
      · apply fuelFree_bind _ _ (fuelFree_siftdown _ _ _)
        intro moved s2 hs2
        have f2 := frame_siftdown hs2
        split
        · refine fuelFree_siftup _ _ ?_
          rw [f2.1.length_eq]
          simp only [List.length_set]
          omega
        · exact fuelFree_ok _ _
      · exact fuelFree_outOfRange _ _
    · simp only []
      refine fuelFree_siftup _ _ ?_
      simp only [List.length_append, List.length_singleton]
      exact hsize
  · exact fuelFree_assertion _

/-- The iteration bounds of the embedding are never what ends a call: on a vector of fewer
than `2^63 - 1` entries no public operation stops with `Fault.fuel`, so every result is the
return of the C++ call, a failed `assert`, or an out-of-range access. -/
theorem iteration_bounds_suffice (s : HeapTimer) (hsize : s.heap_.length + 1 < 2 ^ 63)
    (now id t : Int) (cb : Nat) (clock : Nat → Int) :
    (add now s id t cb).fuelFree ∧ (adjust now s id t).fuelFree ∧ (doWork s id).fuelFree ∧
    (pop s).fuelFree ∧ (tickAt clock s).fuelFree :=
  ⟨fuelFree_add now s id t cb hsize, fuelFree_adjust now s id t,
    fuelFree_doWork s id (by omega), fuelFree_pop s (by omega),
    fuelFree_tickAt clock s (by omega)⟩

/-! ## Every call returns -/

/-- C2 (defect in `siftdown_`). On the five-entry heap with deadlines 1..5 ms, which satisfies
the min-heap property and the index-map invariant, `pop()` returns and leaves the deadlines
`[2, 5, 3, 4]` ms: position 3 (4 ms) lies under position 1 (5 ms). `doWork(1)` removes the same
root entry and leaves the same array. The entry moved to the root sank one level only. -/
theorem pop_breaks_minHeap :
    MinHeap (timerOfMs [1, 2, 3, 4, 5]) ∧ IndexInv (timerOfMs [1, 2, 3, 4, 5]) ∧
    (pop (timerOfMs [1, 2, 3, 4, 5])).isOk = true ∧
    (pop (timerOfMs [1, 2, 3, 4, 5])).state.heap_.map TimerNode.expires
      = [MS 2, MS 5, MS 3, MS 4] ∧
    ¬ MinHeap (pop (timerOfMs [1, 2, 3, 4, 5])).state ∧
    (doWork (timerOfMs [1, 2, 3, 4, 5]) 1).isOk = true ∧
    (doWork (timerOfMs [1, 2, 3, 4, 5]) 1).state.heap_.map TimerNode.expires
      = [MS 2, MS 5, MS 3, MS 4] ∧
    ¬ MinHeap (doWork (timerOfMs [1, 2, 3, 4, 5]) 1).state := by
  decide

/-! ## Sweep (C3, C4, C5) -/

/-- C3 (defect in `siftdown_`). On the six-entry heap with deadlines `[1, 2, 4, 3, 5, 6]` ms
(ids 1..6), which satisfies the min-heap property and the index-map invariant, `tick()` with
the clock at 3 ms invokes the callbacks of ids 1 and 2, returns, and leaves the array
`[4, 6, 5, 3]` ms: the entry with id 4 and deadline 3 ms `<= now` is left behind, below a
root that has not expired. -/
theorem tick_leaves_expired :
    MinHeap (timerOfMs [1, 2, 4, 3, 5, 6]) ∧ IndexInv (timerOfMs [1, 2, 4, 3, 5, 6]) ∧
    tick (MS 3) (timerOfMs [1, 2, 4, 3, 5, 6]) = .ok ()
      { heap_ := [⟨3, MS 4, 3⟩, ⟨6, MS 6, 6⟩, ⟨5, MS 5, 5⟩, ⟨4, MS 3, 4⟩]
        ref_ := [(3, 0), (4, 3), (5, 2), (6, 1)]
        fired := [(1, 1), (2, 2)] } ∧
    (∃ n ∈ (tick (MS 3) (timerOfMs [1, 2, 4, 3, 5, 6])).state.heap_, n.expires ≤ MS 3) := by
  decide

/-- C4 (defect in `siftdown_`). On the six-entry heap with deadlines `[1, 2, 4, 3, 5, 6]` ms
(ids 1..6), which satisfies the min-heap property and the index-map invariant, `tick()` with
the clock at 4 ms returns after invoking the callbacks of ids 1, 2, 3, 4 in this order, whose
deadlines are 1, 2, 4, 3 ms: the entry due at 4 ms is fired before the entry due at 3 ms. The
two removals before it left the array `[4, 6, 5, 3]` ms, each moved entry having sunk one
level only. On the three entries `1 < 2 < 3` ms, all due, the order is 1, 2, 3. -/
theorem tick_fires_out_of_order :
    MinHeap (timerOfMs [1, 2, 4, 3, 5, 6]) ∧ IndexInv (timerOfMs [1, 2, 4, 3, 5, 6]) ∧
    tick (MS 4) (timerOfMs [1, 2, 4, 3, 5, 6]) = .ok ()
      { heap_ := [⟨5, MS 5, 5⟩, ⟨6, MS 6, 6⟩]
        ref_ := [(5, 0), (6, 1)]
        fired := [(1, 1), (2, 2), (3, 3), (4, 4)]
        stray := [9223372036854775807, 9223372036854775807] } ∧
    (tick (MS 4) (timerOfMs [1, 2, 4, 3, 5, 6])).state.fired.map
        (fun p => ((timerOfMs [1, 2, 4, 3, 5, 6]).heap_.filter
          (fun n => decide (n.id = p.2))).map TimerNode.expires)
      = [[MS 1], [MS 2], [MS 4], [MS 3]] ∧
    ¬ (MS 4 ≤ MS 3) ∧
    (tick (MS 2) (timerOfMs [1, 2, 4, 3, 5, 6])).state.heap_.map TimerNode.expires
      = [MS 4, MS 6, MS 5, MS 3] ∧
    tick (MS 3) (timerOfMs [1, 2, 3]) = .ok ()
      { heap_ := [], ref_ := [], fired := [(1, 1), (2, 2), (3, 3)],
        stray := [9223372036854775807] } := by
  decide

/-- C6 (defect in `adjust`). Two entries with deadlines 1000 ms (id 1) and 2000 ms (id 2);
`adjust(2, 10)` at `now = 0` sets the deadline of id 2 to 10 ms and calls `siftdown_` only, so
the entry stays below the 1000 ms root and the min-heap property is broken. A sweep at 15 ms
then looks at the root alone and invokes no callback. -/
theorem adjust_earlier_breaks_minHeap :
    MinHeap (timerOfMs [1000, 2000]) ∧ IndexInv (timerOfMs [1000, 2000]) ∧
    adjust 0 (timerOfMs [1000, 2000]) 2 10 = .ok ()
      { heap_ := [⟨1, MS 1000, 1⟩, ⟨2, 0 + MS 10, 2⟩], ref_ := [(1, 0), (2, 1)], fired := [] } ∧
    ¬ MinHeap (adjust 0 (timerOfMs [1000, 2000]) 2 10).state ∧
    tick (MS 15) (adjust 0 (timerOfMs [1000, 2000]) 2 10).state
      = .ok () (adjust 0 (timerOfMs [1000, 2000]) 2 10).state := by
  decide

/-- C7 (defect in `siftup_`). `add(1, 100, cb)` on the empty heap appends the entry and calls
`siftup_(0)`, which computes the parent index `(0-1)/2 = 2^63 - 1` in `size_t` and reads
`heap_[2^63 - 1]` in a one-entry vector: the log `stray` of reads past the end holds that
index when the call returns. The same read is made when a new entry rises to the root of a
non-empty heap (id 4 with deadline 5 ms added to deadlines 10, 20, 30 ms). In both runs the
entries and the min-heap property are as they should be; the access is the divergence. -/
theorem add_unseen_reads_out_of_range :
    MinHeap (mkTimer []) ∧ IndexInv (mkTimer []) ∧
    parentOf 0 = 9223372036854775807 ∧
    add 0 (mkTimer []) 1 100 1 = .ok ()
      { heap_ := [⟨1, MS 100, 1⟩], ref_ := [(1, 0)], fired := [],
        stray := [9223372036854775807] } ∧
    (∃ k ∈ (add 0 (mkTimer []) 1 100 1).state.stray,
      (add 0 (mkTimer []) 1 100 1).state.heap_.length ≤ k) ∧
    MinHeap (timerOfMs [10, 20, 30]) ∧ IndexInv (timerOfMs [10, 20, 30]) ∧
    add 0 (timerOfMs [10, 20, 30]) 4 5 4 = .ok ()
      { heap_ := [⟨4, MS 5, 4⟩, ⟨1, MS 10, 1⟩, ⟨3, MS 30, 3⟩, ⟨2, MS 20, 2⟩]
        ref_ := [(1, 1), (2, 3), (3, 2), (4, 0)]
        fired := []
        stray := [9223372036854775807] } ∧
    (∃ k ∈ (add 0 (timerOfMs [10, 20, 30]) 4 5 4).state.stray,
      (add 0 (timerOfMs [10, 20, 30]) 4 5 4).state.heap_.length ≤ k) ∧
    MinHeap (add 0 (mkTimer []) 1 100 1).state ∧
    MinHeap (add 0 (timerOfMs [10, 20, 30]) 4 5 4).state := by
  decide

/-- C10. Trigger on an absent id is a no-op: when `id` is not a key of `ref_`, `doWork(id)`
returns and leaves `heap_`, `ref_` and the callback log exactly as they were. -/
theorem doWork_absent (s : HeapTimer) (id : Int) (h : id ∉ s.ref_.map Prod.fst) :
    doWork s id = .ok () s := by
  have hnone : refCount s.ref_ id = 0 := by
    rw [refCount_eq_zero_iff]
    cases hl : refLookup s.ref_ id with
    | none => rfl
    | some v => exact absurd ((refLookup_isSome_iff _ _).mp (by simp [hl])) h
  simp [doWork, hnone]

/-- C10 at concrete states: the empty heap, and a two-entry heap asked for id 7. -/
theorem doWork_absent_witness :
    (5 : Int) ∉ (mkTimer []).ref_.map Prod.fst ∧
    doWork (mkTimer []) 5 = .ok () (mkTimer []) ∧
    doWork (timerOfMs [10, 20]) 7 = .ok () (timerOfMs [10, 20]) :=
  ⟨by decide, doWork_absent (mkTimer []) 5 (by decide),
    doWork_absent (timerOfMs [10, 20]) 7 (by decide)⟩

/-! ## GetNextTick and the timer handler (C11, C12, C13) -/

/-- C11 (defect in `GetNextTick`). One entry due at 10 ms; the sweep reads the clock at 0 ms
and leaves the entry, the delay computation reads it at 15 ms. The count of -5 ms is stored
in the `size_t res` as `2^64 - 5`, the clamp `if(res < 0)` is never taken for an unsigned
value, and the conversion to `int` returns -5: a negative delay for a non-empty heap. -/
theorem getNextTick_returns_negative :
    GetNextTick (fun _ => 0) (MS 15) (mkTimer [(1, MS 10, 1)])
      = .ok (-5) (mkTimer [(1, MS 10, 1)]) ∧
    durationCastMS (MS 10 - MS 15) = -5 ∧
    toSizeT (-5) = 18446744073709551611 ∧
    ¬ (toSizeT (-5) < 0) ∧
    toInt (toSizeT (-5)) = -5 := by
  decide

/-- C12 (defect in `GetNextTick`). One entry due at 1 ms; the sweep reads the clock at 0 ms
and leaves the entry, the delay computation reads it at 2 ms. The count of -1 ms becomes
`2^64 - 1` in the `size_t res`, the same value the sentinel `size_t res = -1` has, and the
call returns -1 although the heap is not empty. The empty heap returns -1 as well. -/
theorem getNextTick_sentinel_on_nonempty :
    GetNextTick (fun _ => 0) (MS 2) (mkTimer [(1, MS 1, 1)])
      = .ok (-1) (mkTimer [(1, MS 1, 1)]) ∧
    (mkTimer [(1, MS 1, 1)]).heap_ ≠ [] ∧
    toSizeT (durationCastMS (MS 1 - MS 2)) = toSizeT (-1) ∧
    GetNextTick (fun _ => 0) (MS 2) (mkTimer []) = .ok (-1) (mkTimer []) := by
  decide

/-- C13 (defect in `timer_handler`). One entry due 500 ms after the clock reading 0:
`GetNextTick()` yields `ms = 500`, and the handler arms `it_value = {0 s, 500 us}` with
`it_interval = {0, 0}`: `tv_usec = ms` stores the millisecond count as microseconds, so the
timer denotes 500 us where 500 ms are `500000` us. With an empty heap the handler calls
`alarm(m_TIMESLOT)`. -/
theorem timer_handler_arms_microseconds :
    GetNextTick (fun _ => 0) 0 (mkTimer [(1, MS 500, 1)])
      = .ok 500 (mkTimer [(1, MS 500, 1)]) ∧
    timer_handler 5 (fun _ => 0) (fun _ => 0) 0 (mkTimer [(1, MS 500, 1)])
      = .ok (.setitimer 0 500 0 0) (mkTimer [(1, MS 500, 1)]) ∧
    (Armed.setitimer 0 500 0 0).valueMicros = some 500 ∧
    (500 : Int) ≠ 500 * 1000 ∧
    timer_handler 5 (fun _ => 0) (fun _ => 0) 0 (mkTimer [])
      = .ok (.alarm 5) (mkTimer []) := by
  decide

/-! ## pop (C14) -/

/-- C17 (defect in `siftdown_`). Array with deadlines `[5, 2, 3, 4]` ms, `n = 4`, `i = 0`:
the min-heap property holds at every position whose parent is not 0. `siftdown_(0, 4)`
swaps positions 0 and 1, leaves the loop at the unconditional `break`, and returns true
with the array `[2, 5, 3, 4]` ms: the moved entry (5 ms) sits at position 1 above its child
at position 3 (4 ms). -/
theorem siftdown_stops_after_one_level :
    MinHeapExcept 0 4 (timerOfMs [5, 2, 3, 4]) ∧
    siftdown_ (timerOfMs [5, 2, 3, 4]) 0 4 = .ok true
      { heap_ := [⟨2, MS 2, 2⟩, ⟨1, MS 5, 1⟩, ⟨3, MS 3, 3⟩, ⟨4, MS 4, 4⟩]
        ref_ := [(1, 1), (2, 0), (3, 2), (4, 3)]
        fired := [] } ∧
    ¬ MinHeapUpTo 4 (siftdown_ (timerOfMs [5, 2, 3, 4]) 0 4).state := by
  decide

/-- At position 0 `siftup_` always reads past the end: on every non-empty vector (of fewer
than `2^63` entries) it reads `heap_[2^63 - 1]`, swaps nothing, and returns. -/
theorem siftup_root_out_of_range (s : HeapTimer) (h0 : 0 < s.heap_.length)
    (hsize : s.heap_.length < 2 ^ 63) :
    siftup_ s 0 = .ok () { s with stray := s.stray ++ [9223372036854775807] } := by
  have hnone : s.heap_[9223372036854775807]? = none :=
    List.getElem?_eq_none (by omega)
  unfold siftup_
  rw [if_pos h0, parentOf_zero]
  unfold siftupLoop
  rw [hnone, List.getElem?_eq_getElem h0]

/-- C18 (defect in `siftup_`). With one entry, `siftup_(0)` computes the parent index
`(0-1)/2 = 2^63 - 1` in `size_t` and reads `heap_[2^63 - 1]`, an index that is not below
`heap_.size()`. With deadlines `[2, 1]` ms, `siftup_(1)` swaps the entry to position 0 and
then makes the same read: the loop test `parent >= 0` does not stop at the root. With
deadlines `[1, 2, 3]` ms, `siftup_(2)` stops at the first ancestor that is not greater and
returns without a read past the end. -/
theorem siftup_reads_past_the_root :
    parentOf 0 = 9223372036854775807 ∧
    siftup_ (timerOfMs [1]) 0 = .ok ()
      { heap_ := [⟨1, MS 1, 1⟩], ref_ := [(1, 0)], fired := [],
        stray := [9223372036854775807] } ∧
    (∃ k ∈ (siftup_ (timerOfMs [1]) 0).state.stray, (timerOfMs [1]).heap_.length ≤ k) ∧
    siftup_ (timerOfMs [2, 1]) 1 = .ok ()
      { heap_ := [⟨2, MS 1, 2⟩, ⟨1, MS 2, 1⟩], ref_ := [(1, 1), (2, 0)], fired := [],
        stray := [9223372036854775807] } ∧
    (∃ k ∈ (siftup_ (timerOfMs [2, 1]) 1).state.stray, (timerOfMs [2, 1]).heap_.length ≤ k) ∧
    siftup_ (timerOfMs [1, 2, 3]) 2 = .ok () (timerOfMs [1, 2, 3]) := by
  decide

/-! ## Readiness registration (C19) -/

theorem testBit_O_NONBLOCK (k : Nat) : Int.testBit O_NONBLOCK k = decide (k = 11) := by
  have h : O_NONBLOCK = ((2 ^ 11 : Nat) : Int) := by decide
  rw [h]
  show Nat.testBit (2 ^ 11) k = decide (k = 11)
  rw [Nat.testBit_two_pow]
  by_cases hk : k = 11
  · simp [hk]
  · have : ¬ 11 = k := fun e => hk e.symm
    simp [hk, this]

theorem addfd_events (old_option : Int) (one_shot : Bool) (TRIGMode : Int) :
    (addfd old_option one_shot TRIGMode).1 =
      if TRIGMode = 1 then (if one_shot then 3221233665 else 2147491841)
      else (if one_shot then 1073750017 else 8193) := by
  by_cases ht : TRIGMode = 1
  · subst ht
    cases one_shot <;> rfl
  · have ht' : ¬ 1 = TRIGMode := fun e => ht e.symm
    cases one_shot
    · simp only [addfd, if_neg ht', if_neg ht]
      rfl
    · simp only [addfd, if_neg ht', if_neg ht]
      rfl

/-- C19. Readiness registration mask: whatever the descriptor's old flags, `TRIGMode` and
`one_shot`, the `events` mask `addfd` passes to `epoll_ctl` contains `EPOLLIN`, contains
`EPOLLET` exactly when `TRIGMode == 1`, and contains `EPOLLONESHOT` exactly when `one_shot`
is true; and the flags word passed to `fcntl(fd, F_SETFL, ..)` is `old | O_NONBLOCK`: every
bit of the old flags, bit 11 (`O_NONBLOCK`) set, and no other bit changed. -/
theorem addfd_mask_and_flags (old_option : Int) (one_shot : Bool) (TRIGMode : Int) :
    (addfd old_option one_shot TRIGMode).1 &&& EPOLLIN = EPOLLIN ∧
    ((addfd old_option one_shot TRIGMode).1 &&& EPOLLET = EPOLLET ↔ TRIGMode = 1) ∧
    ((addfd old_option one_shot TRIGMode).1 &&& EPOLLONESHOT = EPOLLONESHOT ↔
      one_shot = true) ∧
    (addfd old_option one_shot TRIGMode).2 = Int.lor old_option O_NONBLOCK ∧
    (∀ k, Int.testBit (addfd old_option one_shot TRIGMode).2 k
      = (Int.testBit old_option k || decide (k = 11))) := by
  have hflags : (addfd old_option one_shot TRIGMode).2 = Int.lor old_option O_NONBLOCK := rfl
  refine ⟨?_, ?_, ?_, hflags, ?_⟩
  · rw [addfd_events]
    by_cases ht : TRIGMode = 1 <;> cases one_shot <;> simp only [ht, if_true, if_false] <;>
      decide
  · rw [addfd_events]
    by_cases ht : TRIGMode = 1
    · cases one_shot <;> simp only [ht, if_true, if_false, iff_true] <;> decide
    · cases one_shot <;> simp only [ht, if_true, if_false, iff_false] <;> decide
  · rw [addfd_events]
    by_cases ht : TRIGMode = 1 <;> cases one_shot <;>
      simp only [ht, if_true, if_false, iff_true, iff_false, Bool.false_eq_true] <;> decide
  · intro k
    rw [hflags, Int.testBit_lor, testBit_O_NONBLOCK]

/-! ## Synchronisation primitives (C15, C20) -/

theorem condPanic_panics_iff (rc : Int) : CondPanic (decide (0 = rc)) = .panics ↔ rc ≠ 0 := by
  by_cases h : rc = 0
  · subst h
    simp [CondPanic]
  · have h' : ¬ 0 = rc := fun e => h e.symm
    simp [CondPanic, h, h']

theorem condPanic_returns_iff (rc : Int) : CondPanic (decide (0 = rc)) = .returns ↔ rc = 0 := by
  by_cases h : rc = 0
  · subst h
    simp [CondPanic]
  · have h' : ¬ 0 = rc := fun e => h e.symm
    simp [CondPanic, h, h']

/-- Every operation of `Semaphore`, `Mutex` and `CondVar` takes the panic path when its OS
call returns a non-zero code. -/
theorem checked_primitives_panic (rc : Int) (h : rc ≠ 0) :
    Semaphore.init rc = .panics ∧ Semaphore.destroy rc = .panics ∧
    Semaphore.wait rc = .panics ∧ Semaphore.notify rc = .panics ∧
    Mutex.init rc = .panics ∧ Mutex.destroy rc = .panics ∧
    Mutex.lock rc = .panics ∧ Mutex.unlock rc = .panics ∧
    CondVar.init rc = .panics ∧ CondVar.destroy rc = .panics ∧
    CondVar.wait rc = .panics ∧ CondVar.timewait rc = .panics ∧
    CondVar.signal rc = .panics ∧ CondVar.broadcast rc = .panics := by
  have := (condPanic_panics_iff rc).mpr h
  exact ⟨this, this, this, this, this, this, this, this, this, this, this, this, this, this⟩

/-- C15 (defect in `RWMutex`). With the OS call returning the failure code 35 (`EDEADLK`),
each of the five `RWMutex` operations returns to the caller: the result of the
`pthread_rwlock_*` call is discarded, no `CondPanic` is made. `Mutex::lock` with the same
code takes the panic path. -/
theorem rwmutex_ignores_failure :
    RWMutex.init 35 = .returns ∧ RWMutex.destroy 35 = .returns ∧
    RWMutex.rdlock 35 = .returns ∧ RWMutex.wrlock 35 = .returns ∧
    RWMutex.unlock 35 = .returns ∧ Mutex.lock 35 = .panics := by
  decide

/-- C20. Timed wait treats every non-zero return as fatal: `CondVar::timewait` takes the
panic path exactly when `pthread_cond_timedwait` returns a non-zero code, in particular on
`ETIMEDOUT`; `CondVar::wait` and `CondVar::timewait` return exactly on the code 0. -/
theorem timewait_panics_iff_nonzero (rc : Int) :
    (CondVar.timewait rc = .panics ↔ rc ≠ 0) ∧
    CondVar.timewait ETIMEDOUT = .panics ∧
    (CondVar.timewait rc = .returns ↔ rc = 0) ∧
    (CondVar.wait rc = .returns ↔ rc = 0) :=
  ⟨condPanic_panics_iff rc, by decide, condPanic_returns_iff rc, condPanic_returns_iff rc⟩

/-! ## Scope guards (C16) -/

theorem alternating_append (acq : LockCall) (n : Nat) :
    alternating acq n ++ [acq, LockCall.unlock] = alternating acq (n + 1) := by
  induction n with
  | zero => rfl
  | succ n ih =>
    show acq :: LockCall.unlock :: (alternating acq n ++ [acq, LockCall.unlock]) = _
    rw [ih]
    rfl

theorem count_alternating (acq : LockCall) (h : acq ≠ LockCall.unlock) (n : Nat) :
    (alternating acq n).count acq = n ∧ (alternating acq n).count LockCall.unlock = n := by
  induction n with
  | zero => exact ⟨rfl, rfl⟩
  | succ n ih =>
    have h' : LockCall.unlock ≠ acq := fun e => h e.symm
    constructor
    · show (acq :: LockCall.unlock :: alternating acq n).count acq = n + 1
      rw [List.count_cons_self, List.count_cons_of_ne h, ih.1]
    · show (acq :: LockCall.unlock :: alternating acq n).count LockCall.unlock = n + 1
      rw [List.count_cons_of_ne h', List.count_cons_self, ih.2]

theorem acquire_ne_unlock (k : GuardKind) : k.acquire ≠ LockCall.unlock := by
  cases k <;> decide

/-- Between two owner calls a guard is in one of two shapes: holding the lock after `n`
complete acquire/release rounds and one more acquire, or not holding it after `n + 1`
complete rounds. -/
theorem guard_shape_step (k : GuardKind) (g : Guard) (op : GuardOp)
    (h : ∃ n, (g.isLocked_ = true ∧ g.calls = alternating k.acquire n ++ [k.acquire]) ∨
      (g.isLocked_ = false ∧ g.calls = alternating k.acquire (n + 1))) :
    ∃ n, ((Guard.step k g op).isLocked_ = true ∧
        (Guard.step k g op).calls = alternating k.acquire n ++ [k.acquire]) ∨
      ((Guard.step k g op).isLocked_ = false ∧
        (Guard.step k g op).calls = alternating k.acquire (n + 1)) := by
  obtain ⟨n, h | h⟩ := h
  · obtain ⟨hl, hc⟩ := h
    cases op with
    | lock => exact ⟨n, Or.inl (by simp [Guard.step, Guard.lock, hl, hc])⟩
    | unlock =>
      refine ⟨n, Or.inr ?_⟩
      simp only [Guard.step, Guard.unlock, hl, if_true, true_and, hc]
      rw [List.append_assoc]
      exact alternating_append _ _
  · obtain ⟨hl, hc⟩ := h
    cases op with
    | lock =>
      exact ⟨n + 1, Or.inl (by simp [Guard.step, Guard.lock, hl, hc])⟩
    | unlock => exact ⟨n, Or.inr (by simp [Guard.step, Guard.unlock, hl, hc])⟩

theorem guard_shape_foldl (k : GuardKind) (ops : List GuardOp) (g : Guard)
    (h : ∃ n, (g.isLocked_ = true ∧ g.calls = alternating k.acquire n ++ [k.acquire]) ∨
      (g.isLocked_ = false ∧ g.calls = alternating k.acquire (n + 1))) :
    ∃ n, ((ops.foldl (Guard.step k) g).isLocked_ = true ∧
        (ops.foldl (Guard.step k) g).calls = alternating k.acquire n ++ [k.acquire]) ∨
      ((ops.foldl (Guard.step k) g).isLocked_ = false ∧
        (ops.foldl (Guard.step k) g).calls = alternating k.acquire (n + 1)) := by
  induction ops generalizing g with
  | nil => exact h
  | cons op ops ih => exact ih _ (guard_shape_step k g op h)

/-- C16. Scope guards are balanced: for each of the three guard templates and every finite
sequence of `lock()`/`unlock()` calls made on a guard between its construction and its
destruction, the calls delivered to the wrapped lock are `acquire, release` repeated `n + 1`
times for some `n`: they start with the constructor's acquire, alternate strictly, end with a
release, acquire and release occur equally often, and the guard does not hold the lock after
destruction. -/
theorem guard_calls_alternate (k : GuardKind) (ops : List GuardOp) :
    (Guard.lifetime k ops).isLocked_ = false ∧
    ∃ n, (Guard.lifetime k ops).calls = alternating k.acquire (n + 1) ∧
      (Guard.lifetime k ops).calls.count k.acquire = n + 1 ∧
      (Guard.lifetime k ops).calls.count LockCall.unlock = n + 1 := by
  have h0 : ∃ n, ((Guard.construct k).isLocked_ = true ∧
        (Guard.construct k).calls = alternating k.acquire n ++ [k.acquire]) ∨
      ((Guard.construct k).isLocked_ = false ∧
        (Guard.construct k).calls = alternating k.acquire (n + 1)) :=
    ⟨0, Or.inl ⟨rfl, rfl⟩⟩
  obtain ⟨n, h | h⟩ := guard_shape_foldl k ops _ h0
  · obtain ⟨hl, hc⟩ := h
    have hcalls : (Guard.lifetime k ops).calls = alternating k.acquire (n + 1) := by
      simp only [Guard.lifetime, Guard.destruct, Guard.unlock, hl, if_true, hc]
      rw [List.append_assoc]
      exact alternating_append _ _
    refine ⟨by simp [Guard.lifetime, Guard.destruct, Guard.unlock, hl], n, hcalls, ?_, ?_⟩
    · rw [hcalls]
      exact (count_alternating _ (acquire_ne_unlock k) _).1
    · rw [hcalls]
      exact (count_alternating _ (acquire_ne_unlock k) _).2
  · obtain ⟨hl, hc⟩ := h
    have hcalls : (Guard.lifetime k ops).calls = alternating k.acquire (n + 1) := by
      simp [Guard.lifetime, Guard.destruct, Guard.unlock, hl, hc]
    refine ⟨by simp [Guard.lifetime, Guard.destruct, Guard.unlock, hl], n, hcalls, ?_, ?_⟩
    · rw [hcalls]
      exact (count_alternating _ (acquire_ne_unlock k) _).1
    · rw [hcalls]
      exact (count_alternating _ (acquire_ne_unlock k) _).2

end WebServer
